import Mathlib

/-!
# Verification of the cqrs-rust-lib event-sourcing core

A shallow embedding of the library's event-sourcing core:

* `CqrsContext` and its deterministic UUID generation (`src/context.rs`),
* the in-memory storage adapter (`src/es/inmemory.rs`),
* the event store commit protocol (`src/es/impl.rs`),
* the `EventStore` trait's default `initialize_aggregate` / `load_aggregate`
  (`src/event_store.rs`),
* the command engine's create / update entry points (`src/engine.rs`).

Rust `HashMap<String, Snapshot>` / `HashMap<String, Vec<Envelope>>` are
modelled as functions `String → Option _` resp. `String → List _` (the
journal reads use `.cloned().unwrap_or_default()`, so a total function into
lists with default `[]` is an exact model).  `usize` versions are `Nat`,
`DateTime<Utc>` is an abstract `Nat` timestamp, metadata `HashMap<String,
String>` is an association list.  The RNG behind `rand::random::<[u8;16]>()`
is passed in as an explicit oracle `draws : Nat → List Nat`.
-/

namespace Cqrs

/-! ## Context (`src/context.rs`) -/

/-- `CqrsContext`: per-request ambient data.  `now` is captured at
construction (`Utc::now()`), `rand_bytes` is the test override installed by
`with_rand_bytes`. -/
structure CqrsContext where
  currentUser : Option String
  requestId : String
  now : Nat
  randBytes : Option (List Nat)
  deriving Repr

/-- `CqrsContext::current_user`: the stored user or `"anonymous"`. -/
def CqrsContext.current_user (ctx : CqrsContext) : String :=
  ctx.currentUser.getD "anonymous"

/-- `CqrsContext::request_id`. -/
def CqrsContext.request_id (ctx : CqrsContext) : String :=
  ctx.requestId

/-- `CqrsContext::with_rand_bytes`. -/
def CqrsContext.with_rand_bytes (ctx : CqrsContext) (bytes : List Nat) :
    CqrsContext :=
  { ctx with randBytes := some bytes }

/-- `CqrsContext::default()`: `new(None)` with empty request id. -/
def CqrsContext.mkDefault (now : Nat) : CqrsContext :=
  { currentUser := none, requestId := "", now := now, randBytes := none }

/-! ### UUID building (`uuid::Builder::from_random_bytes` + `to_string`) -/

/-- Lower-case hexadecimal digit. -/
def hexDigit (n : Nat) : Char :=
  if n < 10 then Char.ofNat (48 + n) else Char.ofNat (87 + n % 16)

/-- Two-digit lower-case hex of one byte. -/
def byteHex (b : Nat) : List Char :=
  [hexDigit ((b / 16) % 16), hexDigit (b % 16)]

/-- `uuid::Builder::from_random_bytes` stamps the version nibble (byte 6
becomes `(b & 0x0F) | 0x40`) and the RFC variant (byte 8 becomes
`(b & 0x3F) | 0x80`). -/
def setVersionAndVariant (bytes : List Nat) : List Nat :=
  bytes.mapIdx (fun i b =>
    if i = 6 then (b % 16) + 64
    else if i = 8 then (b % 64) + 128
    else b)

/-- Hyphenated 8-4-4-4-12 rendering of 16 bytes, as `Uuid::to_string`. -/
def uuidToString (bytes : List Nat) : String :=
  let hx := fun (l : List Nat) => (l.map byteHex).flatten
  ⟨hx (bytes.take 4) ++ '-' :: hx ((bytes.drop 4).take 2) ++
    '-' :: hx ((bytes.drop 6).take 2) ++ '-' :: hx ((bytes.drop 8).take 2) ++
    '-' :: hx (bytes.drop 10)⟩

/-- `CqrsContext::next_uuid`: uses the overridden bytes when present,
otherwise a fresh random draw (passed explicitly as `draw`). -/
def CqrsContext.next_uuid (ctx : CqrsContext) (draw : List Nat) : String :=
  uuidToString (setVersionAndVariant (ctx.randBytes.getD draw))

/-- Syntactic validity of a v4 / RFC-variant UUID string: 36 characters,
hyphens at positions 8, 13, 18, 23, hex digits elsewhere, `'4'` at
position 14 (the version nibble) and one of `8 9 a b` at position 19 (the
variant nibble). -/
def isValidUuidV4 (s : String) : Bool :=
  let cs := s.data
  cs.length = 36 &&
  (List.range 36).all (fun i =>
    let c := cs.getD i ' '
    if i = 8 ∨ i = 13 ∨ i = 18 ∨ i = 23 then c = '-'
    else if i = 14 then c = '4'
    else if i = 19 then c = '8' ∨ c = '9' ∨ c = 'a' ∨ c = 'b'
    else (('0' ≤ c ∧ c ≤ '9') ∨ ('a' ≤ c ∧ c ≤ 'f')))

/-! ## Data model (`src/event.rs`, `src/snapshot.rs`) -/

/-- `EventEnvelope<A>`: the framed event.  `α` is the aggregate state type,
`ε` the domain event type.  Metadata is an association list standing for
`HashMap<String, String>`. -/
structure EventEnvelope (α ε : Type) where
  event_id : String
  aggregate_id : String
  version : Nat
  payload : ε
  metadata : List (String × String)
  at_ : Nat
  deriving Repr, DecidableEq

/-- `Snapshot<A>`: serialized aggregate state plus version checkpoint. -/
structure Snapshot (α : Type) where
  aggregate_id : String
  state : α
  version : Nat
  deriving Repr, DecidableEq

/-- The `Aggregate` trait (`src/aggregate.rs`) as a record of operations:
identity access/stamping, the default state, the fallible event fold
`apply`, and the two command handlers.  `σ` is the services bag, `γc` /
`γu` the create / update command types.  Handler and apply errors are the
aggregate's own error type, rendered as strings. -/
structure AggregateOps (α ε γc γu σ : Type) where
  aggregate_id : α → String
  with_aggregate_id : α → String → α
  dflt : α
  apply : α → ε → Except String α
  handle_create : α → γc → σ → CqrsContext → Except String (List ε)
  handle_update : α → γu → σ → CqrsContext → Except String (List ε)

/-- The two maps held by `InMemoryPersist` (`src/es/inmemory.rs`): a
snapshot per aggregate id and a journal (vector of envelopes) per
aggregate id.  Journal reads use `.cloned().unwrap_or_default()`, so the
journal is a total function with default `[]`. -/
structure Store (α ε : Type) where
  snapshots : String → Option (Snapshot α)
  journal : String → List (EventEnvelope α ε)

/-- The empty store: both maps empty. -/
def Store.empty (α ε : Type) : Store α ε :=
  { snapshots := fun _ => none, journal := fun _ => [] }

/-- The error paths of the event store and engine
(`AggregateError` / `CqrsError` in `src/errors.rs`), restricted to the
constructors the verified code can produce:
`alreadyExists` = `UserError(CONFLICT, "Aggregate already exists")`,
`notFound` = `UserError(NOT_FOUND, "Aggregate not found")`,
`userError` = a domain error from `apply` / `handle_*`,
`concurrencyError` = `CqrsError::concurrency_error()`. -/
inductive EsError where
  | alreadyExists
  | notFound
  | userError (msg : String)
  | concurrencyError
  deriving Repr, DecidableEq

/-! ## In-memory storage operations (`src/es/inmemory.rs`) -/

/-- `InMemoryPersist::fetch_snapshot`. -/
def fetch_snapshot (store : Store α ε) (aggregateId : String) :
    Option (Snapshot α) :=
  store.snapshots aggregateId

/-- `InMemoryPersist::fetch_all_events`: the journal entry (default `[]`),
already in insertion order. -/
def fetch_all_events (store : Store α ε) (aggregateId : String) :
    List (EventEnvelope α ε) :=
  store.journal aggregateId

/-- `InMemoryPersist::fetch_events_from_version`: only envelopes with
`version > v`. -/
def fetch_events_from_version (store : Store α ε) (aggregateId : String)
    (version : Nat) : List (EventEnvelope α ε) :=
  (store.journal aggregateId).filter (fun e => version < e.version)

/-- `InMemoryPersist::fetch_events_paged`:
`offset = (page.max(1) - 1) * page_size`, then skip/take, paired with the
total journal length. -/
def fetch_events_paged (store : Store α ε) (aggregateId : String)
    (page pageSize : Nat) : List (EventEnvelope α ε) × Nat :=
  let items := store.journal aggregateId
  let total := items.length
  let offset := (max page 1 - 1) * pageSize
  ((items.drop offset).take pageSize, total)

/-- `InMemoryPersist::fetch_latest_event`: `events.last()` of the journal
entry for the aggregate's id. -/
def fetch_latest_event (ops : AggregateOps α ε γc γu σ)
    (store : Store α ε) (aggregate : α) : Option (EventEnvelope α ε) :=
  (store.journal (ops.aggregate_id aggregate)).getLast?

/-- `InMemoryPersist::save_events`: no-op on an empty batch, otherwise
append all envelopes under the first envelope's aggregate id
(`entry().and_modify(push each).or_insert`, which is append either way
given the default `[]`). -/
def save_events (store : Store α ε) (events : List (EventEnvelope α ε)) :
    Store α ε :=
  match events with
  | [] => store
  | e :: _ =>
    { store with
      journal := fun id =>
        if id = e.aggregate_id then store.journal id ++ events
        else store.journal id }

/-- `InMemoryPersist::save_snapshot`: upsert the snapshot for the
aggregate's id. -/
def save_snapshot (ops : AggregateOps α ε γc γu σ) (store : Store α ε)
    (aggregate : α) (version : Nat) : Store α ε :=
  { store with
    snapshots := fun id =>
      if id = ops.aggregate_id aggregate then
        some { aggregate_id := ops.aggregate_id aggregate,
               state := aggregate, version := version }
      else store.snapshots id }

/-! ## The commit protocol (`src/es/impl.rs`)

`EventStoreImpl::commit` opens a session, runs
`execute_within_session`, and closes (on `Ok`) or aborts (on `Err`) the
session.  For the in-memory adapter the session is the pair of owned
locks on the two maps, `close_session` is a no-op and an abort merely
drops the guards, so a run that returned an error without calling
`save_events` / `save_snapshot` leaves the maps untouched.  The whole
commit therefore becomes one atomic function from store to store,
returning the result alongside the (possibly updated) store. -/

/-- `EventStoreImpl::execute_within_session` + session handling of
`commit`: fetch the latest event, compare versions, build the envelopes
(`event_id = ctx.next_uuid()`, `version = expected + i + 1`,
`at = ctx.now()`), append them and upsert the snapshot at
`expected + |events|`.  `draws i` is the random draw consumed by the
`i`-th `next_uuid` call. -/
def commit (ops : AggregateOps α ε γc γu σ) (store : Store α ε)
    (events : List ε) (aggregate : α) (metadata : List (String × String))
    (version : Nat) (ctx : CqrsContext) (draws : Nat → List Nat) :
    Except EsError (List (EventEnvelope α ε)) × Store α ε :=
  let latestVersion :=
    ((fetch_latest_event ops store aggregate).map (fun e => e.version)).getD 0
  if version ≠ latestVersion then
    (Except.error EsError.concurrencyError, store)
  else
    let envelopes := events.enum.map (fun p =>
      { event_id := ctx.next_uuid (draws p.1)
        aggregate_id := ops.aggregate_id aggregate
        version := version + p.1 + 1
        payload := p.2
        metadata := metadata
        at_ := ctx.now : EventEnvelope α ε })
    let store1 := save_events store envelopes
    let store2 := save_snapshot ops store1 aggregate (version + envelopes.length)
    (Except.ok envelopes, store2)

/-! ## `EventStore` default methods (`src/event_store.rs`) -/

/-- `A::default().with_aggregate_id(id)`: the default aggregate stamped
with the id. -/
def defaultStamped (ops : AggregateOps α ε γc γu σ) (id : String) : α :=
  ops.with_aggregate_id ops.dflt id

/-- `EventStore::initialize_aggregate`: conflict when a snapshot exists;
conflict when any event exists even without a snapshot; otherwise the
default aggregate stamped with the id, at version 0. -/
def initialize_aggregate (ops : AggregateOps α ε γc γu σ)
    (store : Store α ε) (aggregateId : String) :
    Except EsError (α × Nat) :=
  match fetch_snapshot store aggregateId with
  | some _ => Except.error EsError.alreadyExists
  | none =>
    if (fetch_all_events store aggregateId).isEmpty then
      Except.ok (defaultStamped ops aggregateId, 0)
    else
      Except.error EsError.alreadyExists

/-- The replay loop of `load_aggregate`: apply each envelope's payload in
order, tracking `latest_version` as the version of the last envelope
processed. -/
def replay (ops : AggregateOps α ε γc γu σ) :
    α → Nat → List (EventEnvelope α ε) → Except EsError (α × Nat)
  | agg, v, [] => Except.ok (agg, v)
  | agg, _, e :: rest =>
    match ops.apply agg e.payload with
    | Except.error msg => Except.error (EsError.userError msg)
    | Except.ok agg' => replay ops agg' e.version rest

/-- `EventStore::load_aggregate`: load the snapshot (absent →
`aggregate_not_found`), stream the envelopes with version greater than the
snapshot's, and fold them via `apply`. -/
def load_aggregate (ops : AggregateOps α ε γc γu σ) (store : Store α ε)
    (aggregateId : String) : Except EsError (α × Nat) :=
  match fetch_snapshot store aggregateId with
  | none => Except.error EsError.notFound
  | some snapshot =>
    replay ops snapshot.state snapshot.version
      (fetch_events_from_version store aggregateId snapshot.version)

/-! ## Command engine (`src/engine.rs`)

The engine's dispatcher fan-out (`handle_events`) is modelled by
recording each invocation as a pair `(aggregate_id, envelopes)`; the
engine invokes it at most once per command, and only when the committed
envelope list is non-empty. -/

/-- The engine's loop applying the handler's events to a local copy of the
aggregate; an `apply` error surfaces as `UserError`. -/
def applyAll (ops : AggregateOps α ε γc γu σ) :
    α → List ε → Except EsError α
  | agg, [] => Except.ok agg
  | agg, e :: rest =>
    match ops.apply agg e with
    | Except.error msg => Except.error (EsError.userError msg)
    | Except.ok agg' => applyAll ops agg' rest

/-- `CqrsCommandEngine::process` (the tail shared by the create path):
apply the events to the local aggregate, commit, and dispatch the
committed envelopes unless the committed list is empty. -/
def process (ops : AggregateOps α ε γc γu σ) (store : Store α ε)
    (aggregateId : String) (aggregate : α) (version : Nat)
    (events : List ε) (metadata : List (String × String))
    (ctx : CqrsContext) (draws : Nat → List Nat) :
    Except EsError Unit × Store α ε ×
      List (String × List (EventEnvelope α ε)) :=
  match applyAll ops aggregate events with
  | Except.error e => (Except.error e, store, [])
  | Except.ok agg' =>
    match commit ops store events agg' metadata version ctx draws with
    | (Except.error e, store') => (Except.error e, store', [])
    | (Except.ok committed, store') =>
      if committed.isEmpty then (Except.ok (), store', [])
      else (Except.ok (), store', [(aggregateId, committed)])

/-- `CqrsCommandEngine::execute_create_with_metadata`: draw a fresh
aggregate id, initialize, run `handle_create`, then `process`.  `draws 0`
feeds the aggregate-id `next_uuid` call; later draws feed the per-envelope
`next_uuid` calls inside `commit`. -/
def execute_create_with_metadata (ops : AggregateOps α ε γc γu σ)
    (services : σ) (store : Store α ε) (cmd : γc)
    (metadata : List (String × String)) (ctx : CqrsContext)
    (draws : Nat → List Nat) :
    Except EsError String × Store α ε ×
      List (String × List (EventEnvelope α ε)) :=
  let aggregateId := ctx.next_uuid (draws 0)
  match initialize_aggregate ops store aggregateId with
  | Except.error e => (Except.error e, store, [])
  | Except.ok (aggregate, version) =>
    match ops.handle_create aggregate cmd services ctx with
    | Except.error msg => (Except.error (EsError.userError msg), store, [])
    | Except.ok events =>
      match process ops store aggregateId aggregate version events metadata
          ctx (fun i => draws (i + 1)) with
      | (Except.error e, store', d) => (Except.error e, store', d)
      | (Except.ok _, store', d) => (Except.ok aggregateId, store', d)

/-- `CqrsCommandEngine::execute_update_with_metadata`: load the aggregate,
run `handle_update`, apply the events locally, commit unconditionally,
then dispatch only when the committed list is non-empty. -/
def execute_update_with_metadata (ops : AggregateOps α ε γc γu σ)
    (services : σ) (store : Store α ε) (aggregateId : String) (cmd : γu)
    (metadata : List (String × String)) (ctx : CqrsContext)
    (draws : Nat → List Nat) :
    Except EsError Unit × Store α ε ×
      List (String × List (EventEnvelope α ε)) :=
  match load_aggregate ops store aggregateId with
  | Except.error e => (Except.error e, store, [])
  | Except.ok (aggregate, version) =>
    match ops.handle_update aggregate cmd services ctx with
    | Except.error msg => (Except.error (EsError.userError msg), store, [])
    | Except.ok events =>
      match applyAll ops aggregate events with
      | Except.error e => (Except.error e, store, [])
      | Except.ok agg' =>
        match commit ops store events agg' metadata version ctx draws with
        | (Except.error e, store') => (Except.error e, store', [])
        | (Except.ok committed, store') =>
          if committed.isEmpty then (Except.ok (), store', [])
          else (Except.ok (), store', [(aggregateId, committed)])

/-- The metadata map built by the REST routers
(`src/rest/write_router.rs`, `src/rest/router.rs`): exactly
`user_id = ctx.current_user()` and `request_id = ctx.request_id()`.  This
is the only place in the library that injects those keys. -/
def rest_metadata (ctx : CqrsContext) : List (String × String) :=
  [("user_id", ctx.current_user), ("request_id", ctx.request_id)]

/-! ## A commit sequence, for the version-density invariant -/

/-- One commit request: the inputs of a single `commit` call. -/
structure CommitReq (α ε : Type) where
  events : List ε
  aggregate : α
  metadata : List (String × String)
  version : Nat
  ctx : CqrsContext
  draws : Nat → List Nat

/-- Run a sequence of `commit` calls, threading the store; failed commits
leave the store as `commit` returned it (unchanged). -/
def runCommits (ops : AggregateOps α ε γc γu σ) :
    Store α ε → List (CommitReq α ε) → Store α ε
  | store, [] => store
  | store, r :: rest =>
    runCommits ops
      (commit ops store r.events r.aggregate r.metadata r.version r.ctx
        r.draws).2 rest

/-- Version density: for every aggregate id the journal's versions are
exactly `1, 2, …, length`. -/
def versionsDense (store : Store α ε) : Prop :=
  ∀ id, (store.journal id).map (fun e => e.version) =
    List.range' 1 (store.journal id).length

/-! ## Spec-side fold (for the replay-determinism refinement claim) -/

/-- Spec-side definition, from the spec's words: fold the payloads of a
list of envelopes via `apply` onto a starting state ("folding the payloads
of `fetch_all_events(id)` onto the default aggregate stamped with id").
The source's `load_aggregate` is compared against this. -/
def specFold (ops : AggregateOps α ε γc γu σ) :
    α → List (EventEnvelope α ε) → Except String α
  | a, [] => Except.ok a
  | a, e :: rest =>
    match ops.apply a e.payload with
    | Except.error msg => Except.error msg
    | Except.ok a' => specFold ops a' rest

/-! ## Concrete fixtures for witnesses and counterexamples

The library is generic over the consumer's aggregate; `counterOps` is a
minimal concrete instance (state = id plus a running total, events are the
amounts added, `handle_update 0` emits no events) used to evaluate the
theorems on closed inputs. -/

/-- A minimal concrete aggregate: state `(id, total)`, events are `Nat`
amounts folded by addition, create emits one event, update with command 0
emits none. -/
def counterOps : AggregateOps (String × Nat) Nat Nat Nat Unit :=
  { aggregate_id := fun s => s.1
    with_aggregate_id := fun s id => (id, s.2)
    dflt := ("", 0)
    apply := fun s e => Except.ok (s.1, s.2 + e)
    handle_create := fun _ c _ _ => Except.ok [c]
    handle_update := fun _ c _ _ =>
      Except.ok (if c = 0 then [] else [c]) }

/-- A fixed context for concrete runs. -/
def ctx0 : CqrsContext :=
  { currentUser := some "alice", requestId := "req-1", now := 42,
    randBytes := none }

/-- A fixed envelope used in concrete stores: version `v`, payload `p`. -/
def env0 (v p : Nat) : EventEnvelope (String × Nat) Nat :=
  { event_id := "e", aggregate_id := "a", version := v, payload := p,
    metadata := [], at_ := 0 }

/-- A store holding 25 envelopes (versions 1..25) for aggregate `"a"`. -/
def store25 : Store (String × Nat) Nat :=
  { snapshots := fun _ => none
    journal := fun id =>
      if id = "a" then (List.range 25).map (fun i => env0 (i + 1) 1)
      else [] }

/-- A store holding one envelope (version 1, payload 2) for aggregate
`"a"` and a snapshot lagging at version 0 — the shape left by an external
writer or a snapshot-cadence variant. -/
def store6 : Store (String × Nat) Nat :=
  { snapshots := fun id =>
      if id = "a" then
        some { aggregate_id := "a", state := ("a", 0), version := 0 }
      else none
    journal := fun id => if id = "a" then [env0 1 2] else [] }


/-! ## Helper lemmas on the commit protocol -/

/-- The envelope batch built by `execute_within_session` for a given
expected version. -/
def mkEnvelopes (ops : AggregateOps α ε γc γu σ) (events : List ε)
    (aggregate : α) (metadata : List (String × String)) (version : Nat)
    (ctx : CqrsContext) (draws : Nat → List Nat) :
    List (EventEnvelope α ε) :=
  events.enum.map (fun p =>
    { event_id := ctx.next_uuid (draws p.1)
      aggregate_id := ops.aggregate_id aggregate
      version := version + p.1 + 1
      payload := p.2
      metadata := metadata
      at_ := ctx.now : EventEnvelope α ε })

theorem commit_ok_shape {ops : AggregateOps α ε γc γu σ}
    {store : Store α ε} {events : List ε} {aggregate : α}
    {metadata : List (String × String)} {version : Nat}
    {ctx : CqrsContext} {draws : Nat → List Nat}
    {envs : List (EventEnvelope α ε)} {store' : Store α ε}
    (h : commit ops store events aggregate metadata version ctx draws =
      (Except.ok envs, store')) :
    envs = mkEnvelopes ops events aggregate metadata version ctx draws ∧
    store' = save_snapshot ops (save_events store envs) aggregate
      (version + envs.length) ∧
    version = ((fetch_latest_event ops store aggregate).map
      (fun e => e.version)).getD 0 := by
  unfold commit at h
  dsimp only at h
  split at h
  · exact absurd (congrArg Prod.fst h) (by simp)
  · next hv =>
    have h1 := congrArg Prod.fst h
    have h2 := congrArg Prod.snd h
    simp only at h1 h2
    have henvs : envs = mkEnvelopes ops events aggregate metadata version
        ctx draws := by
      simpa [mkEnvelopes] using h1.symm
    refine ⟨henvs, ?_, Decidable.not_not.mp hv⟩
    rw [← h2, henvs]
    rfl

theorem commit_ok_of_version_eq (ops : AggregateOps α ε γc γu σ)
    (store : Store α ε) (events : List ε) (aggregate : α)
    (metadata : List (String × String)) (version : Nat)
    (ctx : CqrsContext) (draws : Nat → List Nat)
    (h : version = ((fetch_latest_event ops store aggregate).map
      (fun e => e.version)).getD 0) :
    commit ops store events aggregate metadata version ctx draws =
      (Except.ok (mkEnvelopes ops events aggregate metadata version ctx
        draws),
        save_snapshot ops
          (save_events store
            (mkEnvelopes ops events aggregate metadata version ctx draws))
          aggregate
          (version +
            (mkEnvelopes ops events aggregate metadata version ctx
              draws).length)) := by
  unfold commit
  rw [if_neg (by simp [h])]
  rfl

theorem commit_nil (ops : AggregateOps α ε γc γu σ) (store : Store α ε)
    (aggregate : α) (metadata : List (String × String)) (version : Nat)
    (ctx : CqrsContext) (draws : Nat → List Nat)
    (h : version = ((fetch_latest_event ops store aggregate).map
      (fun e => e.version)).getD 0) :
    commit ops store [] aggregate metadata version ctx draws =
      (Except.ok [], save_snapshot ops store aggregate version) := by
  have := commit_ok_of_version_eq ops store [] aggregate metadata version
    ctx draws h
  simpa [mkEnvelopes, save_events] using this

theorem commit_conflict_eq (ops : AggregateOps α ε γc γu σ)
    (store : Store α ε) (events : List ε) (aggregate : α)
    (metadata : List (String × String)) (version : Nat)
    (ctx : CqrsContext) (draws : Nat → List Nat)
    (h : version ≠ ((fetch_latest_event ops store aggregate).map
      (fun e => e.version)).getD 0) :
    commit ops store events aggregate metadata version ctx draws =
      (Except.error EsError.concurrencyError, store) := by
  unfold commit
  rw [if_pos h]

/-! ## List helper lemmas -/

theorem range'_one_append (s m n : Nat) :
    List.range' s m ++ List.range' (s + m) n = List.range' s (m + n) := by
  have h := List.range'_append s m n 1
  rw [Nat.one_mul] at h
  rw [h, Nat.add_comm n m]

theorem range'_drop (m : Nat) :
    ∀ (s n : Nat), (List.range' s n).drop m = List.range' (s + m) (n - m) := by
  induction m with
  | zero => intro s n; simp
  | succ m ih =>
    intro s n
    cases n with
    | zero => simp
    | succ n =>
      rw [List.range'_succ]
      show (List.range' (s + 1) n).drop m = _
      rw [ih (s + 1) n]
      have h1 : s + 1 + m = s + (m + 1) := by omega
      have h2 : n - m = n + 1 - (m + 1) := by omega
      rw [h1, h2]

theorem enumFrom_map_version (v : Nat) (l : List ε) :
    ∀ k, (List.enumFrom k l).map (fun p => v + p.1 + 1) =
      List.range' (v + k + 1) l.length := by
  induction l with
  | nil => intro k; rfl
  | cons e es ih =>
    intro k
    show (v + k + 1) :: (List.enumFrom (k + 1) es).map (fun p => v + p.1 + 1)
      = List.range' (v + k + 1) (es.length + 1)
    rw [ih (k + 1), List.range'_succ]
    rfl

theorem mkEnvelopes_map_version (ops : AggregateOps α ε γc γu σ)
    (events : List ε) (aggregate : α) (metadata : List (String × String))
    (version : Nat) (ctx : CqrsContext) (draws : Nat → List Nat) :
    (mkEnvelopes ops events aggregate metadata version ctx draws).map
      (fun e => e.version) = List.range' (version + 1) events.length := by
  unfold mkEnvelopes
  rw [List.map_map]
  show (List.enumFrom 0 events).map (fun p => version + p.1 + 1) = _
  simpa using enumFrom_map_version version events 0

theorem mkEnvelopes_length (ops : AggregateOps α ε γc γu σ)
    (events : List ε) (aggregate : α) (metadata : List (String × String))
    (version : Nat) (ctx : CqrsContext) (draws : Nat → List Nat) :
    (mkEnvelopes ops events aggregate metadata version ctx draws).length =
      events.length := by
  have h := congrArg List.length
    (mkEnvelopes_map_version ops events aggregate metadata version ctx draws)
  simpa using h

theorem mkEnvelopes_mem_aggregate_id (ops : AggregateOps α ε γc γu σ)
    {events : List ε} {aggregate : α} {metadata : List (String × String)}
    {version : Nat} {ctx : CqrsContext} {draws : Nat → List Nat} :
    ∀ e ∈ mkEnvelopes ops events aggregate metadata version ctx draws,
      e.aggregate_id = ops.aggregate_id aggregate := by
  intro e he
  obtain ⟨p, _, rfl⟩ := List.mem_map.mp he
  rfl

theorem mkEnvelopes_mem_metadata (ops : AggregateOps α ε γc γu σ)
    {events : List ε} {aggregate : α} {metadata : List (String × String)}
    {version : Nat} {ctx : CqrsContext} {draws : Nat → List Nat} :
    ∀ e ∈ mkEnvelopes ops events aggregate metadata version ctx draws,
      e.metadata = metadata := by
  intro e he
  obtain ⟨p, _, rfl⟩ := List.mem_map.mp he
  rfl

theorem getLast_version_dense {l : List (EventEnvelope α ε)} :
    ∀ (t : Nat),
      l.map (fun e => e.version) = List.range' (t + 1) l.length →
      ∀ w, ((l.getLast?.map (fun e => e.version)).getD w) =
        if l.length = 0 then w else t + l.length := by
  induction l with
  | nil => intro t _ w; rfl
  | cons e es ih =>
    intro t h w
    rw [List.length_cons, List.range'_succ] at h
    have hver : e.version = t + 1 := (List.cons.injEq _ _ _ _ ▸ h).1
    have hes : es.map (fun e => e.version) =
        List.range' (t + 1 + 1) es.length := (List.cons.injEq _ _ _ _ ▸ h).2
    cases es with
    | nil => simp [List.getLast?, hver]
    | cons f fs =>
      rw [List.getLast?_cons_cons]
      have := ih (t + 1) hes w
      rw [if_neg (by simp)] at this
      rw [this, if_neg (by simp)]
      simp [List.length_cons]
      omega

theorem save_events_journal (store : Store α ε)
    (envs : List (EventEnvelope α ε)) (aid : String)
    (hall : ∀ e ∈ envs, e.aggregate_id = aid) :
    (save_events store envs).journal aid = store.journal aid ++ envs ∧
    (∀ id, id ≠ aid → (save_events store envs).journal id =
      store.journal id) ∧
    (save_events store envs).snapshots = store.snapshots := by
  cases envs with
  | nil => simp [save_events]
  | cons e rest =>
    have he : e.aggregate_id = aid := hall e (by simp)
    refine ⟨?_, fun id hid => ?_, rfl⟩
    · simp [save_events, he]
    · simp [save_events, he, hid]

/-- In a version-dense journal, the `latest.version ?? 0` read by the
commit protocol equals the journal length. -/
theorem latest_version_eq_length (ops : AggregateOps α ε γc γu σ)
    (store : Store α ε) (aggregate : α)
    (h : (store.journal (ops.aggregate_id aggregate)).map
      (fun e => e.version) =
      List.range' 1 (store.journal (ops.aggregate_id aggregate)).length) :
    ((fetch_latest_event ops store aggregate).map
      (fun e => e.version)).getD 0 =
      (store.journal (ops.aggregate_id aggregate)).length := by
  unfold fetch_latest_event
  have := getLast_version_dense 0 h 0
  rw [this]
  split
  · omega
  · omega

/-- Version density is preserved by any single `commit` call, successful
or refused. -/
theorem commit_preserves_dense (ops : AggregateOps α ε γc γu σ)
    (store : Store α ε) (events : List ε) (aggregate : α)
    (metadata : List (String × String)) (version : Nat)
    (ctx : CqrsContext) (draws : Nat → List Nat)
    (hdense : versionsDense store) :
    versionsDense
      (commit ops store events aggregate metadata version ctx draws).2 := by
  by_cases hv : version = ((fetch_latest_event ops store aggregate).map
      (fun e => e.version)).getD 0
  · rw [commit_ok_of_version_eq ops store events aggregate metadata version
      ctx draws hv]
    have hall : ∀ e ∈ mkEnvelopes ops events aggregate metadata version
        ctx draws, e.aggregate_id = ops.aggregate_id aggregate :=
      mkEnvelopes_mem_aggregate_id ops
    obtain ⟨hself, hother, -⟩ :=
      save_events_journal store _ (ops.aggregate_id aggregate) hall
    intro id
    show (((save_events store _).journal id).map (fun e => e.version)) =
      List.range' 1 ((save_events store _).journal id).length
    by_cases hid : id = ops.aggregate_id aggregate
    · subst hid
      have hveq : version =
          (store.journal (ops.aggregate_id aggregate)).length :=
        hv.trans (latest_version_eq_length ops store aggregate (hdense _))
      rw [hself, List.map_append, hdense (ops.aggregate_id aggregate),
        mkEnvelopes_map_version, List.length_append, mkEnvelopes_length,
        hveq,
        Nat.add_comm (store.journal (ops.aggregate_id aggregate)).length 1]
      exact range'_one_append 1
        (store.journal (ops.aggregate_id aggregate)).length events.length
    · rw [hother id hid]
      exact hdense id
  · rw [commit_conflict_eq ops store events aggregate metadata version ctx
      draws hv]
    exact hdense

/-- Version density is preserved by any sequence of `commit` calls. -/
theorem runCommits_preserves_dense (ops : AggregateOps α ε γc γu σ)
    (reqs : List (CommitReq α ε)) :
    ∀ store : Store α ε, versionsDense store →
      versionsDense (runCommits ops store reqs) := by
  induction reqs with
  | nil => exact fun _ h => h
  | cons r rest ih =>
    intro store hdense
    exact ih _ (commit_preserves_dense ops store r.events r.aggregate
      r.metadata r.version r.ctx r.draws hdense)

/-! ## Claim theorems -/

/-- C10: for a context built with `with_rand_bytes([0; 16])`, `next_uuid()`
returns exactly `"00000000-0000-4000-8000-000000000000"`, which is still a
syntactically valid v4-version, RFC-variant UUID — whatever random draw
the RNG would have produced. -/
theorem C10_deterministic_uuid (ctx : CqrsContext) (draw : List Nat) :
    (ctx.with_rand_bytes (List.replicate 16 0)).next_uuid draw =
      "00000000-0000-4000-8000-000000000000" ∧
    isValidUuidV4 "00000000-0000-4000-8000-000000000000" = true :=
  ⟨rfl, rfl⟩

/-- C9: the in-memory `fetch_events_paged` is 1-based: for `page ≥ 1` it
skips `(page-1)*page_size` envelopes and takes the next `page_size`,
returning the journal length as total; with versions 1..25 stored,
`fetch_events_paged(id, 2, 10)` returns the envelopes with versions 11..20
in ascending order and total 25. -/
theorem C9_fetch_events_paged (store : Store α ε) (id : String)
    (page pageSize : Nat) (hp : 1 ≤ page) :
    fetch_events_paged store id page pageSize =
      (((store.journal id).drop ((page - 1) * pageSize)).take pageSize,
        (store.journal id).length) ∧
    (fetch_events_paged store25 "a" 2 10).1.map (fun e => e.version) =
      List.range' 11 10 ∧
    (fetch_events_paged store25 "a" 2 10).2 = 25 := by
  refine ⟨?_, by decide, by decide⟩
  unfold fetch_events_paged
  rw [Nat.max_eq_left hp]

/-- Witness for C9 at page 2, page size 10 on the 25-envelope store. -/
theorem C9_fetch_events_paged_witness :
    fetch_events_paged store25 "a" 2 10 =
      (((store25.journal "a").drop 10).take 10,
        (store25.journal "a").length) :=
  (C9_fetch_events_paged store25 "a" 2 10 (by decide)).1

/-- C1: a `commit` whose expected version differs from the latest stored
envelope's version (0 when the journal is empty) returns
`concurrency_error` and leaves the whole store — journal and snapshot —
exactly as it was. -/
theorem C1_commit_version_conflict (ops : AggregateOps α ε γc γu σ)
    (store : Store α ε) (events : List ε) (aggregate : α)
    (metadata : List (String × String)) (version : Nat)
    (ctx : CqrsContext) (draws : Nat → List Nat)
    (h : version ≠
      ((fetch_latest_event ops store aggregate).map
        (fun e => e.version)).getD 0) :
    commit ops store events aggregate metadata version ctx draws =
      (Except.error EsError.concurrencyError, store) ∧
    (commit ops store events aggregate metadata version ctx draws).2.journal
      = store.journal ∧
    (commit ops store events aggregate metadata version ctx draws).2.snapshots
      = store.snapshots := by
  have hmain :
      commit ops store events aggregate metadata version ctx draws =
        (Except.error EsError.concurrencyError, store) := by
    unfold commit
    rw [if_pos h]
  exact ⟨hmain, by rw [hmain], by rw [hmain]⟩

/-- Witness for C1: committing at expected version 3 against an empty
journal (latest version 0) is refused and changes nothing. -/
theorem C1_commit_version_conflict_witness :
    commit counterOps (Store.empty (String × Nat) Nat) [7] ("a", 0) [] 3
        ctx0 (fun _ => []) =
      (Except.error EsError.concurrencyError,
        Store.empty (String × Nat) Nat) :=
  (C1_commit_version_conflict counterOps (Store.empty (String × Nat) Nat)
    [7] ("a", 0) [] 3 ctx0 (fun _ => []) (by decide)).1

/-- C4: `initialize_aggregate(id)` returns the already-exists conflict if
a snapshot exists for `id`, or if the journal holds at least one envelope
even without a snapshot; otherwise it returns the default aggregate
stamped with `id` at version 0. -/
theorem C4_initialize_aggregate (ops : AggregateOps α ε γc γu σ)
    (store : Store α ε) (id : String) :
    ((store.snapshots id).isSome →
      initialize_aggregate ops store id = Except.error EsError.alreadyExists)
    ∧ (store.snapshots id = none → store.journal id ≠ [] →
      initialize_aggregate ops store id = Except.error EsError.alreadyExists)
    ∧ (store.snapshots id = none → store.journal id = [] →
      initialize_aggregate ops store id =
        Except.ok (defaultStamped ops id, 0)) := by
  unfold initialize_aggregate fetch_snapshot fetch_all_events
  refine ⟨fun hs => ?_, fun hn hj => ?_, fun hn hj => ?_⟩
  · obtain ⟨snap, hsnap⟩ := Option.isSome_iff_exists.mp hs
    rw [hsnap]
  · rw [hn]
    simp [List.isEmpty_iff, hj]
  · rw [hn]
    simp [List.isEmpty_iff, hj]

/-- Witness for C4: a fresh id on the empty store initializes at version
0; an id with one stored envelope and no snapshot is refused. -/
theorem C4_initialize_aggregate_witness :
    initialize_aggregate counterOps (Store.empty (String × Nat) Nat) "x" =
      Except.ok (("x", 0), 0) ∧
    initialize_aggregate counterOps store25 "a" =
      Except.error EsError.alreadyExists :=
  ⟨(C4_initialize_aggregate counterOps (Store.empty (String × Nat) Nat)
      "x").2.2 rfl rfl,
    (C4_initialize_aggregate counterOps store25 "a").2.1 rfl (by decide)⟩

/-- C7: every envelope built by one `commit` call carries
`at = context.now()` — the clock captured at context construction — so all
envelopes of a single commit share the same `at` value. -/
theorem C7_commit_timestamp_coherent (ops : AggregateOps α ε γc γu σ)
    (store : Store α ε) (events : List ε) (aggregate : α)
    (metadata : List (String × String)) (version : Nat)
    (ctx : CqrsContext) (draws : Nat → List Nat)
    (envs : List (EventEnvelope α ε)) (store' : Store α ε)
    (h : commit ops store events aggregate metadata version ctx draws =
      (Except.ok envs, store')) :
    (∀ e ∈ envs, e.at_ = ctx.now) ∧
    ∀ e1 ∈ envs, ∀ e2 ∈ envs, e1.at_ = e2.at_ := by
  have hat : ∀ e ∈ envs, e.at_ = ctx.now := by
    unfold commit at h
    dsimp only at h
    split at h
    · exact absurd (congrArg Prod.fst h) (by simp)
    · have henvs : envs = (events.enum.map (fun p =>
          { event_id := ctx.next_uuid (draws p.1)
            aggregate_id := ops.aggregate_id aggregate
            version := version + p.1 + 1
            payload := p.2
            metadata := metadata
            at_ := ctx.now : EventEnvelope α ε })) := by
        have := congrArg Prod.fst h
        simpa using this.symm
      intro e he
      rw [henvs] at he
      obtain ⟨p, _, rfl⟩ := List.mem_map.mp he
      rfl
  exact ⟨hat, fun e1 h1 e2 h2 => (hat e1 h1).trans (hat e2 h2).symm⟩

/-- Witness for C7: a concrete commit of two events; the first committed
envelope carries `at = 42`, the context clock. -/
theorem C7_commit_timestamp_coherent_witness :
    (((commit counterOps (Store.empty (String × Nat) Nat) [2, 3] ("a", 5)
      [] 0 ctx0 (fun _ => [])).1.toOption.getD []).getD 0
        (env0 0 0)).at_ = ctx0.now := by
  have h := C7_commit_timestamp_coherent counterOps
    (Store.empty (String × Nat) Nat) [2, 3] ("a", 5) [] 0 ctx0
    (fun _ => [])
    ((commit counterOps (Store.empty (String × Nat) Nat) [2, 3] ("a", 5)
      [] 0 ctx0 (fun _ => [])).1.toOption.getD [])
    ((commit counterOps (Store.empty (String × Nat) Nat) [2, 3] ("a", 5)
      [] 0 ctx0 (fun _ => [])).2) rfl
  exact h.1 _ (by decide)

/-- C2: after any sequence of commits from the empty store, every
aggregate's journal versions are exactly `1..K` (dense, strictly
increasing, no gaps, no duplicates, where `K` is the journal length); and
every individual commit that passes the version check — necessarily with
expected version `v` equal to the current journal length — appends
envelopes numbered `v+1, …, v+n` for its `n` events, and preserves
density. -/
theorem C2_version_density (ops : AggregateOps α ε γc γu σ)
    (reqs : List (CommitReq α ε)) (store : Store α ε) (events : List ε)
    (aggregate : α) (metadata : List (String × String)) (version : Nat)
    (ctx : CqrsContext) (draws : Nat → List Nat)
    (envs : List (EventEnvelope α ε)) (store2 : Store α ε)
    (hdense : versionsDense store)
    (hok : commit ops store events aggregate metadata version ctx draws =
      (Except.ok envs, store2)) :
    versionsDense (runCommits ops (Store.empty α ε) reqs) ∧
    envs.map (fun e => e.version) =
      List.range' (version + 1) events.length ∧
    version = (store.journal (ops.aggregate_id aggregate)).length ∧
    store2.journal (ops.aggregate_id aggregate) =
      store.journal (ops.aggregate_id aggregate) ++ envs ∧
    versionsDense store2 := by
  obtain ⟨henvs, hst, hlatest⟩ := commit_ok_shape hok
  have hvlen : version =
      (store.journal (ops.aggregate_id aggregate)).length :=
    hlatest.trans (latest_version_eq_length ops store aggregate (hdense _))
  have hall : ∀ e ∈ envs, e.aggregate_id = ops.aggregate_id aggregate := by
    rw [henvs]; exact mkEnvelopes_mem_aggregate_id ops
  obtain ⟨hself, -, -⟩ :=
    save_events_journal store envs (ops.aggregate_id aggregate) hall
  refine ⟨runCommits_preserves_dense ops reqs _ (fun _ => rfl), ?_, hvlen,
    ?_, ?_⟩
  · rw [henvs]; exact mkEnvelopes_map_version ops events aggregate metadata
      version ctx draws
  · rw [hst]; exact hself
  · rw [hst, henvs]
    have := commit_preserves_dense ops store events aggregate metadata
      version ctx draws hdense
    rw [commit_ok_of_version_eq ops store events aggregate metadata version
      ctx draws hlatest] at this
    exact this

/-- Witness for C2: one concrete commit of one event on the empty store
appends version 1; the journal after the run is dense. -/
theorem C2_version_density_witness :
    versionsDense (runCommits counterOps
      (Store.empty (String × Nat) Nat) []) ∧
    ((commit counterOps (Store.empty (String × Nat) Nat) [5] ("a", 5) [] 0
        ctx0 (fun _ => [])).1.toOption.getD []).map (fun e => e.version) =
      List.range' 1 1 ∧
    (commit counterOps (Store.empty (String × Nat) Nat) [5] ("a", 5) [] 0
        ctx0 (fun _ => [])).2.journal "a" =
      (Store.empty (String × Nat) Nat).journal "a" ++
        ((commit counterOps (Store.empty (String × Nat) Nat) [5] ("a", 5)
          [] 0 ctx0 (fun _ => [])).1.toOption.getD []) := by
  have h := C2_version_density counterOps []
    (Store.empty (String × Nat) Nat) [5] ("a", 5) [] 0 ctx0 (fun _ => [])
    ((commit counterOps (Store.empty (String × Nat) Nat) [5] ("a", 5) [] 0
      ctx0 (fun _ => [])).1.toOption.getD [])
    ((commit counterOps (Store.empty (String × Nat) Nat) [5] ("a", 5) [] 0
      ctx0 (fun _ => [])).2)
    (fun _ => rfl) rfl
  exact ⟨h.1, h.2.1, h.2.2.2.1⟩

/-! ## Replay lemmas for the load path -/

theorem specFold_append_ok (ops : AggregateOps α ε γc γu σ) {a b : α}
    {l1 : List (EventEnvelope α ε)} (l2 : List (EventEnvelope α ε))
    (h : specFold ops a l1 = Except.ok b) :
    specFold ops a (l1 ++ l2) = specFold ops b l2 := by
  induction l1 generalizing a with
  | nil =>
    simp only [specFold] at h
    cases h
    rfl
  | cons e es ih =>
    simp only [List.cons_append, specFold] at h ⊢
    cases happ : ops.apply a e.payload with
    | error m => rw [happ] at h; cases h
    | ok a1 =>
      simp only [happ] at h ⊢
      exact ih h

theorem replay_eq_specFold (ops : AggregateOps α ε γc γu σ) :
    ∀ (l : List (EventEnvelope α ε)) (a : α) (w : Nat),
      replay ops a w l =
        match specFold ops a l with
        | Except.error m => Except.error (EsError.userError m)
        | Except.ok b =>
          Except.ok (b, (l.getLast?.map (fun e => e.version)).getD w) := by
  intro l
  induction l with
  | nil => intro a w; rfl
  | cons e es ih =>
    intro a w
    show (match ops.apply a e.payload with
      | Except.error msg => Except.error (EsError.userError msg)
      | Except.ok a1 => replay ops a1 e.version es) = _
    cases happ : ops.apply a e.payload with
    | error m => simp only [specFold, happ]
    | ok a1 =>
      simp only [happ]
      rw [ih a1 e.version]
      simp only [specFold, happ]
      cases es with
      | nil => rfl
      | cons f fs =>
        rw [List.getLast?_cons_cons]
        cases hgl : (f :: fs).getLast? with
        | none => simp at hgl
        | some x => rfl

theorem filter_version_eq_drop :
    ∀ (l : List (EventEnvelope α ε)) (s : Nat),
      l.map (fun e => e.version) = List.range' (s + 1) l.length →
      ∀ v, s ≤ v →
        l.filter (fun e => v < e.version) = l.drop (v - s) := by
  intro l
  induction l with
  | nil => intro s _ v _; simp
  | cons e es ih =>
    intro s h v hv
    rw [List.length_cons, List.range'_succ] at h
    have hver : e.version = s + 1 := (List.cons.injEq _ _ _ _ ▸ h).1
    have hes : es.map (fun e => e.version) =
        List.range' (s + 1 + 1) es.length := (List.cons.injEq _ _ _ _ ▸ h).2
    rcases Nat.eq_or_lt_of_le hv with heq | hlt
    · subst heq
      rw [Nat.sub_self]
      apply List.filter_eq_self.mpr
      intro a ha
      rcases List.mem_cons.mp ha with rfl | ha'
      · simp [hver]
      · have hm : a.version ∈ List.range' (s + 1 + 1) es.length := by
          rw [← hes]
          exact List.mem_map_of_mem _ ha'
        have := (List.mem_range'_1.mp hm).1
        simp only [decide_eq_true_eq]
        omega
    · have hhead : (e :: es).filter (fun e => v < e.version) =
          es.filter (fun e => v < e.version) := by
        rw [List.filter_cons, if_neg (by simp [hver]; omega)]
      rw [hhead, ih (s + 1) hes v hlt]
      have hvs : v - s = (v - (s + 1)) + 1 := by omega
      rw [hvs]
      rfl

/-- C3: when the store is in a commit-reachable shape for `id` — journal
versions dense `1..K`, a snapshot present at some version `v ≤ K` whose
state is the fold of the first `v` envelopes onto the default aggregate
stamped with `id`, and the full fold succeeding — `load_aggregate(id)`
returns exactly the full fold of `fetch_all_events(id)` and the highest
stored version `K`, whichever intermediate snapshot it starts from. -/
theorem C3_load_aggregate_replay (ops : AggregateOps α ε γc γu σ)
    (store : Store α ε) (id : String) (snap : Snapshot α) (final : α)
    (hdense : (store.journal id).map (fun e => e.version) =
      List.range' 1 (store.journal id).length)
    (hsnap : store.snapshots id = some snap)
    (hv : snap.version ≤ (store.journal id).length)
    (hpref : specFold ops (defaultStamped ops id)
      ((store.journal id).take snap.version) = Except.ok snap.state)
    (hfull : specFold ops (defaultStamped ops id)
      (fetch_all_events store id) = Except.ok final) :
    load_aggregate ops store id =
      Except.ok (final, (store.journal id).length) := by
  unfold load_aggregate fetch_snapshot
  rw [hsnap]
  dsimp only
  unfold fetch_events_from_version
  have hfilter := filter_version_eq_drop (store.journal id) 0
    (by simpa using hdense) snap.version (Nat.zero_le _)
  rw [Nat.sub_zero] at hfilter
  rw [hfilter]
  have hsplit := specFold_append_ok ops
    ((store.journal id).drop snap.version) hpref
  rw [List.take_append_drop] at hsplit
  have hdropfold : specFold ops snap.state
      ((store.journal id).drop snap.version) = Except.ok final :=
    hsplit.symm.trans hfull
  rw [replay_eq_specFold, hdropfold]
  have hmapdrop : ((store.journal id).drop snap.version).map
      (fun e => e.version) =
      List.range' (snap.version + 1)
        ((store.journal id).drop snap.version).length := by
    rw [List.map_drop, hdense, range'_drop, List.length_drop,
      Nat.add_comm 1 snap.version]
  have hlast := getLast_version_dense snap.version hmapdrop snap.version
  rw [hlast]
  have hfin : (if ((store.journal id).drop snap.version).length = 0 then
      snap.version
    else snap.version + ((store.journal id).drop snap.version).length) =
      (store.journal id).length := by
    rw [List.length_drop]
    split
    · next h0 => omega
    · next h0 => omega
  rw [hfin]

/-- Witness for C3: a store whose journal holds one envelope (version 1,
payload 2) while the snapshot lags at version 0; loading folds the tail
and returns the state after the event at version 1. -/
theorem C3_load_aggregate_replay_witness :
    load_aggregate counterOps store6 "a" = Except.ok (("a", 2), 1) :=
  C3_load_aggregate_replay counterOps store6 "a"
    { aggregate_id := "a", state := ("a", 0), version := 0 } ("a", 2)
    (by decide) rfl (by decide) rfl rfl

/-! ## Dispatched-envelope metadata lemmas (engine pass-through) -/

theorem process_dispatched_metadata (ops : AggregateOps α ε γc γu σ)
    (store : Store α ε) (aggregateId : String) (aggregate : α)
    (version : Nat) (events : List ε) (metadata : List (String × String))
    (ctx : CqrsContext) (draws : Nat → List Nat) :
    ∀ p ∈ (process ops store aggregateId aggregate version events metadata
      ctx draws).2.2, ∀ e ∈ p.2, e.metadata = metadata := by
  unfold process
  split
  · intro p hp; simp at hp
  · split
    · intro p hp; simp at hp
    · next committed store2 heq =>
      split
      · intro p hp; simp at hp
      · intro p hp
        rw [List.mem_singleton] at hp
        subst hp
        intro e he
        obtain ⟨henvs, -, -⟩ := commit_ok_shape heq
        rw [henvs] at he
        exact mkEnvelopes_mem_metadata ops e he

theorem update_dispatched_metadata (ops : AggregateOps α ε γc γu σ)
    (services : σ) (store : Store α ε) (aggregateId : String) (cmd : γu)
    (metadata : List (String × String)) (ctx : CqrsContext)
    (draws : Nat → List Nat) :
    ∀ p ∈ (execute_update_with_metadata ops services store aggregateId cmd
      metadata ctx draws).2.2, ∀ e ∈ p.2, e.metadata = metadata := by
  unfold execute_update_with_metadata
  split
  · intro p hp; simp at hp
  · split
    · intro p hp; simp at hp
    · split
      · intro p hp; simp at hp
      · split
        · intro p hp; simp at hp
        · next committed store2 heq =>
          split
          · intro p hp; simp at hp
          · intro p hp
            rw [List.mem_singleton] at hp
            subst hp
            intro e he
            obtain ⟨henvs, -, -⟩ := commit_ok_shape heq
            rw [henvs] at he
            exact mkEnvelopes_mem_metadata ops e he

theorem create_dispatched_metadata (ops : AggregateOps α ε γc γu σ)
    (services : σ) (store : Store α ε) (cmd : γc)
    (metadata : List (String × String)) (ctx : CqrsContext)
    (draws : Nat → List Nat) :
    ∀ p ∈ (execute_create_with_metadata ops services store cmd metadata ctx
      draws).2.2, ∀ e ∈ p.2, e.metadata = metadata := by
  unfold execute_create_with_metadata
  dsimp only
  split
  · intro p hp; simp at hp
  · next aggregate version heq1 =>
    split
    · intro p hp; simp at hp
    · next events heq2 =>
      split
      · next e2 store2 d heq =>
        intro p hp
        have hd : d = (process ops store (ctx.next_uuid (draws 0)) aggregate
            version events metadata ctx (fun i => draws (i + 1))).2.2 := by
          rw [heq]
        rw [hd] at hp
        exact process_dispatched_metadata ops store (ctx.next_uuid (draws 0))
          aggregate version events metadata ctx (fun i => draws (i + 1))
          p hp
      · next u store2 d heq =>
        intro p hp
        have hd : d = (process ops store (ctx.next_uuid (draws 0)) aggregate
            version events metadata ctx (fun i => draws (i + 1))).2.2 := by
          rw [heq]
        rw [hd] at hp
        exact process_dispatched_metadata ops store (ctx.next_uuid (draws 0))
          aggregate version events metadata ctx (fun i => draws (i + 1))
          p hp

/-- C5 fails on the code: the engine does not inject `user_id` /
`request_id`.  Calling `execute_create_with_metadata` with an empty
caller map on a context whose user is `"alice"` commits an envelope whose
metadata has no `user_id` entry at all. -/
theorem C5_counterexample :
    (execute_create_with_metadata counterOps ()
      (Store.empty (String × Nat) Nat) 5 [] ctx0
      (fun _ => List.replicate 16 0)).1 =
      Except.ok "00000000-0000-4000-8000-000000000000" ∧
    ((execute_create_with_metadata counterOps ()
      (Store.empty (String × Nat) Nat) 5 [] ctx0
      (fun _ => List.replicate 16 0)).2.1.journal
        "00000000-0000-4000-8000-000000000000").map
      (fun e => List.lookup "user_id" e.metadata) = [none] ∧
    ctx0.current_user = "alice" :=
  ⟨rfl, rfl, rfl⟩

/-- C5 amended: the engine passes the caller-supplied metadata map to the
store verbatim — every envelope dispatched by
`execute_create_with_metadata` / `execute_update_with_metadata` carries
exactly the caller map, with no injected entries.  The `user_id` /
`request_id` entries appear only because the REST routers pass
`{ user_id: ctx.current_user(), request_id: ctx.request_id() }` as that
map, in which case every committed envelope contains them. -/
theorem C5_metadata_passthrough (ops : AggregateOps α ε γc γu σ)
    (services : σ) (store : Store α ε) (cmd : γc) (aggregateId : String)
    (cmdU : γu) (metadata : List (String × String)) (ctx : CqrsContext)
    (draws : Nat → List Nat) :
    (∀ p ∈ (execute_create_with_metadata ops services store cmd metadata
      ctx draws).2.2, ∀ e ∈ p.2, e.metadata = metadata) ∧
    (∀ p ∈ (execute_update_with_metadata ops services store aggregateId
      cmdU metadata ctx draws).2.2, ∀ e ∈ p.2, e.metadata = metadata) ∧
    (metadata = rest_metadata ctx →
      List.lookup "user_id" metadata = some ctx.current_user ∧
      List.lookup "request_id" metadata = some ctx.request_id) := by
  refine ⟨create_dispatched_metadata ops services store cmd metadata ctx
    draws, update_dispatched_metadata ops services store aggregateId cmdU
    metadata ctx draws, fun hm => ?_⟩
  subst hm
  exact ⟨rfl, rfl⟩

/-- Witness for C5 amended: a concrete create with the REST-router map;
the dispatched envelope carries exactly that map, which contains the
`user_id` and `request_id` entries. -/
theorem C5_metadata_passthrough_witness :
    (∀ p ∈ (execute_create_with_metadata counterOps ()
      (Store.empty (String × Nat) Nat) 5 (rest_metadata ctx0) ctx0
      (fun _ => List.replicate 16 0)).2.2,
      ∀ e ∈ p.2, e.metadata = rest_metadata ctx0) ∧
    List.lookup "user_id" (rest_metadata ctx0) = some ctx0.current_user ∧
    List.lookup "request_id" (rest_metadata ctx0) =
      some ctx0.request_id := by
  have h := C5_metadata_passthrough counterOps ()
    (Store.empty (String × Nat) Nat) 5 "a" 0 (rest_metadata ctx0) ctx0
    (fun _ => List.replicate 16 0)
  exact ⟨h.1, h.2.2 rfl⟩

/-- C6 fails on the code: an update whose handler returns an empty event
list still performs the commit — a storage session is opened and the
snapshot is rewritten.  On a store whose snapshot lags at version 0 with
one journal envelope, the no-op update command succeeds and the stored
snapshot visibly changes from version 0 to version 1. -/
theorem C6_counterexample :
    (execute_update_with_metadata counterOps () store6 "a" 0 [] ctx0
      (fun _ => [])).1 = Except.ok () ∧
    (execute_update_with_metadata counterOps () store6 "a" 0 [] ctx0
      (fun _ => [])).2.1.snapshots "a" =
      some { aggregate_id := "a", state := ("a", 2), version := 1 } ∧
    store6.snapshots "a" =
      some { aggregate_id := "a", state := ("a", 0), version := 0 } :=
  ⟨rfl, rfl, rfl⟩

/-- C6 amended: when `handle_update` returns an empty event list the
engine still calls `commit` — a session is opened, nothing is appended to
the journal (`save_events` is a no-op on an empty batch), and the snapshot
is rewritten with the loaded state at the unchanged version — but no
dispatcher is invoked and the call returns success. -/
theorem C6_no_events_update (ops : AggregateOps α ε γc γu σ)
    (services : σ) (store : Store α ε) (aggregateId : String) (cmd : γu)
    (metadata : List (String × String)) (ctx : CqrsContext)
    (draws : Nat → List Nat) (a : α) (v : Nat)
    (hL : load_aggregate ops store aggregateId = Except.ok (a, v))
    (hU : ops.handle_update a cmd services ctx = Except.ok [])
    (hV : v = ((fetch_latest_event ops store a).map
      (fun e => e.version)).getD 0) :
    execute_update_with_metadata ops services store aggregateId cmd
        metadata ctx draws =
      (Except.ok (), save_snapshot ops store a v, []) ∧
    (save_snapshot ops store a v).journal = store.journal := by
  have hC := commit_nil ops store a metadata v ctx draws hV
  refine ⟨?_, rfl⟩
  unfold execute_update_with_metadata
  rw [hL]
  dsimp only
  rw [hU]
  dsimp only [applyAll]
  rw [hC]
  rfl

/-- Witness for C6 amended: the concrete no-op update on `store6`. -/
theorem C6_no_events_update_witness :
    execute_update_with_metadata counterOps () store6 "a" 0 [] ctx0
      (fun _ => []) =
      (Except.ok (), save_snapshot counterOps store6 ("a", 2) 1, []) :=
  (C6_no_events_update counterOps () store6 "a" 0 [] ctx0 (fun _ => [])
    ("a", 2) 1 rfl rfl rfl).1

/-- C8: a commit with an empty events list and a matching expected version
succeeds with an empty envelope vector; the journal is untouched (the
in-memory `save_events` returns immediately on empty input, never
touching `events.first()`), the snapshot is nevertheless overwritten with
the passed aggregate state at the unchanged version, and the engine's
update path then skips all dispatchers. -/
theorem C8_empty_commit (ops : AggregateOps α ε γc γu σ)
    (store : Store α ε) (aggregate : α)
    (metadata : List (String × String)) (version : Nat)
    (ctx : CqrsContext) (draws : Nat → List Nat) (services : σ)
    (aggregateId : String) (cmd : γu) (a a2 : α) (v : Nat)
    (events2 : List ε) (st2 : Store α ε)
    (h : version = ((fetch_latest_event ops store aggregate).map
      (fun e => e.version)).getD 0)
    (hL : load_aggregate ops store aggregateId = Except.ok (a, v))
    (hU : ops.handle_update a cmd services ctx = Except.ok events2)
    (hA : applyAll ops a events2 = Except.ok a2)
    (hC : commit ops store events2 a2 metadata v ctx draws =
      (Except.ok [], st2)) :
    commit ops store [] aggregate metadata version ctx draws =
      (Except.ok [], save_snapshot ops store aggregate version) ∧
    (save_snapshot ops store aggregate version).journal = store.journal ∧
    (save_snapshot ops store aggregate version).snapshots
        (ops.aggregate_id aggregate) =
      some { aggregate_id := ops.aggregate_id aggregate,
             state := aggregate, version := version } ∧
    save_events store ([] : List (EventEnvelope α ε)) = store ∧
    execute_update_with_metadata ops services store aggregateId cmd
        metadata ctx draws = (Except.ok (), st2, []) := by
  refine ⟨commit_nil ops store aggregate metadata version ctx draws h, rfl,
    ?_, rfl, ?_⟩
  · show (if ops.aggregate_id aggregate = ops.aggregate_id aggregate then _
      else _) = _
    rw [if_pos rfl]
  · unfold execute_update_with_metadata
    rw [hL]
    dsimp only
    rw [hU]
    dsimp only
    rw [hA]
    dsimp only
    rw [hC]
    rfl

/-- Witness for C8: on `store6` (latest version 1) an empty commit at
expected version 1 succeeds, leaves the journal alone, rewrites the
snapshot, and the engine's no-op update dispatches nothing. -/
theorem C8_empty_commit_witness :
    commit counterOps store6 [] ("a", 9) [] 1 ctx0 (fun _ => []) =
      (Except.ok [], save_snapshot counterOps store6 ("a", 9) 1) ∧
    execute_update_with_metadata counterOps () store6 "a" 0 [] ctx0
        (fun _ => []) =
      (Except.ok (), save_snapshot counterOps store6 ("a", 2) 1, []) := by
  have h := C8_empty_commit counterOps store6 ("a", 9) [] 1 ctx0
    (fun _ => []) () "a" 0 ("a", 2) ("a", 2) 1 [] 
    (save_snapshot counterOps store6 ("a", 2) 1) rfl rfl rfl rfl rfl
  exact ⟨h.1, h.2.2.2.2⟩

end Cqrs
